import Mathlib

/-!
Shallow embedding of the `FHESlotMachine` Solidity contract and the
frontend's multiplier table (`getMultiplierInfo` in `App.tsx`).

Encrypted integers (`euint8`, `euint32`, `euint64`) are modelled as `Nat`
with explicit reduction modulo `2 ^ w` where the EVM/FHE semantics wraps;
`ebool` becomes `Bool`; `FHE.select c a b` becomes `if c then a else b`.
Contract storage is a `ContractState`; each external entry point is a
function on that state, returning `Except String _` when the Solidity
code can revert (a revert leaves the state unchanged, which `applyOp`
realises by discarding the failed call's effects).
-/

namespace SlotGuard

/-- Modulus of a 64-bit word. -/
def U64 : Nat := 2 ^ 64

/-- Modulus of a 32-bit word. -/
def U32 : Nat := 2 ^ 32

/-- Embedding of `_computeMultiplier` (contract lines 18–70): the
branchless FHE select tree over the three reel symbols, literally
transcribed with `Bool`/`if` in place of `ebool`/`FHE.select`. -/
def computeMultiplier (s1 s2 s3 : Nat) : Nat :=
  let x0 : Nat := 0
  let x2 : Nat := 2
  let x5 : Nat := 5
  let x25 : Nat := 25
  let x50 : Nat := 50
  let xHalfCode : Nat := 255
  let s1eqs2 : Bool := s1 == s2
  let s2eqs3 : Bool := s2 == s3
  let s1eqs3 : Bool := s1 == s3
  let threeEq : Bool := s1eqs2 && s2eqs3
  let twoEq : Bool := s1eqs2 || (s2eqs3 || s1eqs3)
  let threeEqMult : Nat :=
    if s1 == 5 then x50 else if s1 == 4 then x25 else x5
  let pairSym : Nat :=
    if s1eqs2 then s1 else if s2eqs3 then s2 else if s1eqs3 then s1 else 255
  let pairIsHigh : Bool := pairSym == 4 || pairSym == 5
  let twoEqMult : Nat := if pairIsHigh then x2 else xHalfCode
  if threeEq then threeEqMult else if twoEq then twoEqMult else x0

/-- The multiplier truth table as written in the spec (section 4):
stated from the spec's words, to be compared with `computeMultiplier`.
"lucky" is symbol 5, "seven" is symbol 4; 0.5x is the sentinel 255. -/
def specMultiplier (s1 s2 s3 : Nat) : Nat :=
  if s1 = s2 ∧ s2 = s3 then
    if s1 = 5 then 50 else if s1 = 4 then 25 else 5
  else if s1 = s2 ∨ s2 = s3 ∨ s1 = s3 then
    let rep : Nat := if s1 = s2 then s1 else if s2 = s3 then s2 else s1
    if rep = 4 ∨ rep = 5 then 2 else 255
  else 0

/-- Embedding of the frontend's `getMultiplierInfo` (App.tsx lines
41–66): returns the display name and the multiplier as a rational
(the TS code returns the JS number 0.5 for a low pair). -/
def getMultiplierInfo (a b c : Nat) : String × ℚ :=
  let allEq : Bool := a == b && b == c
  let anyTwoEq : Bool := a == b || b == c || a == c
  if allEq then
    if a == 5 then ("Three Clovers", 50)
    else if a == 4 then ("Three Sevens", 25)
    else ("Three of a kind", 5)
  else if anyTwoEq then
    if (a == b && (a == 4 || a == 5)) ||
       (b == c && (b == 4 || b == 5)) ||
       (a == c && (a == 4 || a == 5)) then
      ("High Pair (7/ Clover)", 2)
    else
      ("Low Pair", mkRat 1 2)
  else ("No match", 0)

/-- Reading of the contract's multiplier code as a rational, under the
correspondence that the 255 sentinel denotes one half. -/
def multCodeToRat (m : Nat) : ℚ :=
  if m = 255 then mkRat 1 2 else (m : ℚ)

/-- Embedding of the `GameRecord` struct (contract lines 72–80). -/
structure GameRecord where
  encBet : Nat
  sym1 : Nat
  sym2 : Nat
  sym3 : Nat
  encPayout : Nat
  timestamp : Nat
  claimed : Bool
deriving DecidableEq, Repr

/-- The six fields of a record that `getUserRecord` returns (everything
but the `claimed` flag). -/
def GameRecord.core (r : GameRecord) : Nat × Nat × Nat × Nat × Nat × Nat :=
  (r.encBet, r.sym1, r.sym2, r.sym3, r.encPayout, r.timestamp)

/-- Contract storage plus the contract's ETH balance: `_history`,
`_players`, `_isPlayer` (contract lines 82–84) and
`address(this).balance`.  Addresses are modelled as `Nat`. -/
structure ContractState where
  history : Nat → List GameRecord
  players : List Nat
  isPlayer : Nat → Bool
  balance : Nat

/-- Freshly deployed contract: empty histories, no players, zero pool. -/
def initialState : ContractState :=
  { history := fun _ => [], players := [], isPlayer := fun _ => false,
    balance := 0 }

/-- `deposit()` (lines 90–93): payable, requires `msg.value > 0`. -/
def deposit (s : ContractState) (value : Nat) : Except String ContractState :=
  if value > 0 then
    Except.ok { s with balance := s.balance + value }
  else Except.error "No ETH sent"

/-- `poolBalance()` (lines 96–98). -/
def poolBalance (s : ContractState) : Nat := s.balance

/-- Step 1 of `betAndSpin` (lines 104–107): the bet is `msg.value`
truncated to `uint64` when ETH was sent, else the external encrypted
`euint64` input. -/
def resolveBet (msgValue betExt : Nat) : Nat :=
  if msgValue > 0 then msgValue % U64 else betExt % U64

/-- Step 2 of `betAndSpin` (lines 109–113): one reel symbol, a random
32-bit draw reduced mod 6 (`FHE.rem(FHE.randEuint32(), 6)`). -/
def drawSymbol (r : Nat) : Nat := r % U32 % 6

/-- Step 4 of `betAndSpin` (lines 118–122): 64-bit payout
`FHE.select(isHalf, bet / 2, bet * mult)` for multiplier code `m`. -/
def spinPayout (bet m : Nat) : Nat :=
  let intPayout := bet * m % U64
  let isHalf : Bool := m == 255
  let halfPayout := bet / 2
  if isHalf then halfPayout else intPayout

/-- Step 6 of `betAndSpin` (lines 128–137): the stored `GameRecord`. -/
def spinRecord (msgValue betExt r1 r2 r3 ts : Nat) : GameRecord :=
  let bet := resolveBet msgValue betExt
  let s1 := drawSymbol r1
  let s2 := drawSymbol r2
  let s3 := drawSymbol r3
  { encBet := bet, sym1 := s1, sym2 := s2, sym3 := s3,
    encPayout := spinPayout bet (computeMultiplier s1 s2 s3),
    timestamp := ts, claimed := false }

/-- `betAndSpin` (lines 103–161).  `msgValue` is `msg.value`; `betExt`
the external encrypted bet (a `euint64`, hence reduced mod `2^64`);
`r1 r2 r3` the three `FHE.randEuint32()` draws (reduced mod `2^32`);
`ts` is `block.timestamp`.  Being payable, the call credits `msg.value`
to the contract balance.  Returns the new state together with the
index carried by the `Played` event (lines 154–160). -/
def betAndSpin (s : ContractState)
    (sender msgValue betExt r1 r2 r3 ts : Nat) : ContractState × Nat :=
  let newRec : GameRecord := spinRecord msgValue betExt r1 r2 r3 ts
  let history' : Nat → List GameRecord :=
    fun u => if u = sender then s.history u ++ [newRec] else s.history u
  let players' : List Nat :=
    if s.isPlayer sender then s.players else s.players ++ [sender]
  let isPlayer' : Nat → Bool :=
    if s.isPlayer sender then s.isPlayer
    else fun u => if u = sender then true else s.isPlayer u
  (⟨history', players', isPlayer', s.balance + msgValue⟩,
   (s.history sender).length)

/-- `getUserHistoryLength` (lines 167–169). -/
def getUserHistoryLength (s : ContractState) (user : Nat) : Nat :=
  (s.history user).length

/-- `getUserRecord` (lines 171–186): view, reverts when the index is
out of bounds, else returns the six non-claimed fields. -/
def getUserRecord (s : ContractState) (user index : Nat) :
    Except String (Nat × Nat × Nat × Nat × Nat × Nat) :=
  if h : index < (s.history user).length then
    Except.ok ((s.history user).get ⟨index, h⟩).core
  else Except.error "Index out of bounds"

/-- `getUserRecordStatus` (lines 189–192). -/
def getUserRecordStatus (s : ContractState) (user index : Nat) :
    Except String Bool :=
  if h : index < (s.history user).length then
    Except.ok ((s.history user).get ⟨index, h⟩).claimed
  else Except.error "Index out of bounds"

/-- The `for` loop of `claimAllMock` (lines 204–211) acting on the
caller's record list: walks the indexes in order, reverting on an
out-of-bounds index or an already-claimed record, marking each visited
record claimed as it goes. -/
def claimLoop (recs : List GameRecord) :
    List Nat → Except String (List GameRecord)
  | [] => Except.ok recs
  | idx :: rest =>
    if h : idx < recs.length then
      let r := recs.get ⟨idx, h⟩
      if r.claimed then Except.error "Already claimed"
      else claimLoop (recs.set idx { r with claimed := true }) rest
    else Except.error "Index OOB"

/-- `claimAllMock` (lines 200–218).  `clearPayouts` entries are
`uint64`, hence reduced mod `2^64` when summed; `transferOk` models
whether the low-level ETH `call` to the sender succeeds. -/
def claimAllMock (s : ContractState) (sender : Nat)
    (indexes clearPayouts : List Nat) (transferOk : Bool) :
    Except String ContractState :=
  if indexes.length = clearPayouts.length then
    match claimLoop (s.history sender) indexes with
    | Except.error e => Except.error e
    | Except.ok recs =>
      let total : Nat := (clearPayouts.map (· % U64)).sum
      if s.balance ≥ total then
        if total > 0 then
          if transferOk then
            Except.ok
              { s with
                history := fun u => if u = sender then recs else s.history u,
                balance := s.balance - total }
          else Except.error "Transfer failed"
        else
          Except.ok
            { s with
              history := fun u => if u = sender then recs else s.history u }
      else Except.error "Insufficient pool"
  else Except.error "Length mismatch"

/-- `getPlayers` (lines 221–223). -/
def getPlayers (s : ContractState) : List Nat := s.players

/-- A state-changing contract call with its transaction inputs (the
views are pure functions of the state and change nothing). -/
inductive Op where
  | deposit (value : Nat)
  | betAndSpin (sender msgValue betExt r1 r2 r3 ts : Nat)
  | claimAllMock (sender : Nat) (indexes clearPayouts : List Nat)
      (transferOk : Bool)
deriving Repr

/-- Transaction semantics: a reverting call leaves the state unchanged. -/
def applyOp (s : ContractState) : Op → ContractState
  | Op.deposit v =>
    match deposit s v with
    | Except.ok s' => s'
    | Except.error _ => s
  | Op.betAndSpin sender mv be r1 r2 r3 ts =>
    (betAndSpin s sender mv be r1 r2 r3 ts).1
  | Op.claimAllMock sender idxs pays ok =>
    match claimAllMock s sender idxs pays ok with
    | Except.ok s' => s'
    | Except.error _ => s

/-- A sequence of transactions applied in order. -/
def applyOps (s : ContractState) (ops : List Op) : ContractState :=
  ops.foldl applyOp s

/-- Contract invariant: all stored reel symbols are in the 6-symbol
alphabet, the players list is duplicate-free, mirrors the `_isPlayer`
flag, and holds exactly the addresses with non-empty history. -/
def Inv (s : ContractState) : Prop :=
  (∀ u, ∀ r ∈ s.history u, r.sym1 < 6 ∧ r.sym2 < 6 ∧ r.sym3 < 6) ∧
  s.players.Nodup ∧
  (∀ a, a ∈ s.players ↔ s.isPlayer a = true) ∧
  (∀ a, s.isPlayer a = true ↔ s.history a ≠ [])

/-- The revert condition of the `claimAllMock` loop at position `k` of
`indexes`: the index there is out of the caller's history bounds, or
references a record claimed before the call, or repeats an earlier
entry of `indexes` (which the loop has by then already marked
claimed). -/
def badIndexAt (recs : List GameRecord) (idxs : List Nat) (k : Nat) :
    Prop :=
  ∃ hk : k < idxs.length,
    recs.length ≤ idxs[k] ∨
    (∃ hi : idxs[k] < recs.length, (recs[idxs[k]]).claimed = true) ∨
    idxs[k] ∈ idxs.take k

/-! ## Helper lemmas -/

/-- `computeMultiplier` only ever produces one of the six codes
0, 2, 5, 25, 50 or the half sentinel 255, for any inputs. -/
theorem computeMultiplier_cases (s1 s2 s3 : Nat) :
    computeMultiplier s1 s2 s3 ∈ [0, 2, 5, 25, 50, 255] := by
  unfold computeMultiplier
  dsimp only
  split_ifs <;> simp

/-- On success `claimLoop` preserves the length of the record list. -/
theorem claimLoop_ok_length (idxs : List Nat) :
    ∀ recs out : List GameRecord,
      claimLoop recs idxs = Except.ok out → out.length = recs.length := by
  induction idxs with
  | nil =>
    intro recs out h
    unfold claimLoop at h
    injection h with h
    rw [← h]
  | cons idx rest ih =>
    intro recs out h
    unfold claimLoop at h
    split at h
    · dsimp only at h
      split at h
      · simp at h
      · have := ih _ _ h
        simpa using this
    · simp at h

/-- On success `claimLoop` keeps every record's non-claimed fields and
sets the claimed flag exactly on the records whose index was visited. -/
theorem claimLoop_ok_get (idxs : List Nat) :
    ∀ recs out : List GameRecord,
      claimLoop recs idxs = Except.ok out → ∀ j : Nat,
        out[j]?.map GameRecord.core = recs[j]?.map GameRecord.core ∧
        out[j]?.map GameRecord.claimed =
          recs[j]?.map (fun r => r.claimed || decide (j ∈ idxs)) := by
  induction idxs with
  | nil =>
    intro recs out h j
    unfold claimLoop at h
    injection h with h
    subst h
    simp
  | cons idx rest ih =>
    intro recs out h j
    unfold claimLoop at h
    split at h
    · rename_i hlt
      dsimp only at h
      split at h
      · simp at h
      · rename_i hcl
        have H := ih _ _ h j
        by_cases hj : j = idx
        · subst hj
          rw [List.getElem?_set_self hlt] at H
          refine ⟨?_, ?_⟩
          · rw [List.getElem?_eq_getElem hlt]
            exact H.1.trans (by rfl)
          · rw [List.getElem?_eq_getElem hlt, H.2]
            simp
        · rw [List.getElem?_set_ne (fun he => hj he.symm)] at H
          refine ⟨H.1, ?_⟩
          rw [H.2]
          by_cases hjl : j < recs.length
          · rw [List.getElem?_eq_getElem hjl]
            simp [List.mem_cons, hj]
          · rw [List.getElem?_eq_none (le_of_not_lt hjl)]
            simp
    · simp at h

/-- Shape of a successful `claimAllMock`: the caller's history is the
output of the claim loop, everything else is unchanged except the pool
balance, which drops by the (uint64-reduced) sum of `clearPayouts`. -/
theorem claimAllMock_ok (s : ContractState) (sender : Nat)
    (idxs pays : List Nat) (tok : Bool) (s' : ContractState)
    (h : claimAllMock s sender idxs pays tok = Except.ok s') :
    (∃ recs, claimLoop (s.history sender) idxs = Except.ok recs ∧
      s'.history = fun u => if u = sender then recs else s.history u) ∧
    s'.players = s.players ∧ s'.isPlayer = s.isPlayer ∧
    s'.balance = s.balance - (pays.map (· % U64)).sum := by
  unfold claimAllMock at h
  split at h
  · split at h
    · simp at h
    · rename_i recs hcl
      dsimp only at h
      split at h
      · rename_i hbal
        split at h
        · split at h
          · injection h with h
            subst h
            exact ⟨⟨recs, hcl, rfl⟩, rfl, rfl, rfl⟩
          · simp at h
        · rename_i htot
          injection h with h
          subst h
          refine ⟨⟨recs, hcl, rfl⟩, rfl, rfl, ?_⟩
          have : (pays.map (· % U64)).sum = 0 := by omega
          simp [this]
      · simp at h
  · simp at h

/-! ## Claims -/

/-- C1: For every triple of symbols in {0,…,5}, `_computeMultiplier`
returns the multiplier of the spec's truth table: 50 for three 5s
(lucky), 25 for three 4s (seven), 5 for any other three of a kind,
2 when exactly two are equal with the repeated symbol in {4, 5},
the 0.5x sentinel 255 when exactly two are equal with a low repeated
symbol, and 0 when all three are distinct. -/
theorem computeMultiplier_matches_spec_table :
    ∀ s1 < 6, ∀ s2 < 6, ∀ s3 < 6,
      computeMultiplier s1 s2 s3 = specMultiplier s1 s2 s3 := by
  decide

/-- Witness for C1 at the concrete triple (5, 5, 5). -/
theorem computeMultiplier_matches_spec_table_witness :
    (5 : Nat) < 6 ∧ computeMultiplier 5 5 5 = specMultiplier 5 5 5 :=
  ⟨by decide,
   computeMultiplier_matches_spec_table 5 (by decide) 5 (by decide) 5
     (by decide)⟩

/-- C3: On all 216 symbol triples in {0,…,5}³ the frontend's
`getMultiplierInfo` returns the same multiplier as the contract's
`_computeMultiplier`, reading the contract's 255 sentinel as ½. -/
theorem getMultiplierInfo_equiv_computeMultiplier :
    ∀ a < 6, ∀ b < 6, ∀ c < 6,
      (getMultiplierInfo a b c).2 = multCodeToRat (computeMultiplier a b c) := by
  decide

/-- Witness for C3 at the concrete triple (0, 1, 0), a low pair. -/
theorem getMultiplierInfo_equiv_computeMultiplier_witness :
    (0 : Nat) < 6 ∧ (1 : Nat) < 6 ∧
    (getMultiplierInfo 0 1 0).2 = multCodeToRat (computeMultiplier 0 1 0) :=
  ⟨by decide, by decide,
   getMultiplierInfo_equiv_computeMultiplier 0 (by decide) 1 (by decide) 0
     (by decide)⟩

/-- C2: The record appended by `betAndSpin` stores
`encPayout = bet * m mod 2^64` for the ordinary multiplier codes
(all of which lie in {0, 2, 5, 25, 50}) and `encPayout = ⌊bet / 2⌋`
when the multiplier is the 0.5x sentinel 255. -/
theorem betAndSpin_payout_spec (s : ContractState)
    (sender msgValue betExt r1 r2 r3 ts : Nat) :
    ∃ r : GameRecord,
      ((betAndSpin s sender msgValue betExt r1 r2 r3 ts).1.history
          sender).getLast? = some r ∧
      computeMultiplier r.sym1 r.sym2 r.sym3 ∈ [0, 2, 5, 25, 50, 255] ∧
      r.encPayout =
        (if computeMultiplier r.sym1 r.sym2 r.sym3 = 255 then r.encBet / 2
         else r.encBet * computeMultiplier r.sym1 r.sym2 r.sym3 % U64) := by
  refine ⟨spinRecord msgValue betExt r1 r2 r3 ts, ?_, ?_, ?_⟩
  · simp [betAndSpin]
  · exact computeMultiplier_cases _ _ _
  · show spinPayout (resolveBet msgValue betExt)
        (computeMultiplier (drawSymbol r1) (drawSymbol r2) (drawSymbol r3)) =
      (if computeMultiplier (drawSymbol r1) (drawSymbol r2) (drawSymbol r3)
            = 255
       then resolveBet msgValue betExt / 2
       else resolveBet msgValue betExt *
         computeMultiplier (drawSymbol r1) (drawSymbol r2) (drawSymbol r3)
           % U64)
    unfold spinPayout
    dsimp only
    split <;> rename_i hb
    · rw [if_pos (by simpa using hb)]
    · rw [if_neg (by simpa using hb)]

/-- C10: `getUserRecord` and `getUserRecordStatus` revert with
"Index out of bounds" exactly when the index is at least the user's
history length; otherwise they return the stored record's six
non-claimed fields, resp. its claimed flag.  (Both are `view`
functions: in this embedding they are pure functions of the state and
return no successor state, so they modify nothing.) -/
theorem getUserRecord_spec (s : ContractState) (user index : Nat) :
    (getUserRecord s user index = Except.error "Index out of bounds" ↔
      getUserHistoryLength s user ≤ index) ∧
    (getUserRecordStatus s user index = Except.error "Index out of bounds" ↔
      getUserHistoryLength s user ≤ index) ∧
    (∀ h : index < (s.history user).length,
      getUserRecord s user index =
        Except.ok ((s.history user).get ⟨index, h⟩).core ∧
      getUserRecordStatus s user index =
        Except.ok ((s.history user).get ⟨index, h⟩).claimed) := by
  unfold getUserRecord getUserRecordStatus getUserHistoryLength
  refine ⟨?_, ?_, ?_⟩
  · split <;> rename_i h <;> simp <;> omega
  · split <;> rename_i h <;> simp <;> omega
  · intro h
    rw [dif_pos h, dif_pos h]
    exact ⟨rfl, rfl⟩

/-- Witness for C10 on a concrete one-record state at index 0. -/
theorem getUserRecord_spec_witness :
    getUserRecord (betAndSpin initialState 1 1 0 0 0 0 0).1 1 0 =
      Except.ok (1, 0, 0, 0, 5, 0) :=
  ((getUserRecord_spec (betAndSpin initialState 1 1 0 0 0 0 0).1 1 0).2.2
      (by decide)).1.trans rfl

/-- C6 counterexample: the claim says the only state a successful
`betAndSpin` may change besides the caller's history is the players
list, but `betAndSpin` is payable and credits `msg.value` to the pool
balance: with `msg.value = 1` the balance changes. -/
theorem betAndSpin_changes_balance :
    (betAndSpin initialState 1 1 0 0 0 0 0).1.balance ≠
      initialState.balance := by
  decide

/-- C6 (amended): a successful `betAndSpin` appends exactly one record
to the caller's history, the `Played` event carries the new record's
index (the new length minus one), every other player's history is
unchanged, the caller is added (once) to the players list when absent,
and — `betAndSpin` being payable — the pool balance grows by
`msg.value`. -/
theorem betAndSpin_frame (s : ContractState)
    (sender msgValue betExt r1 r2 r3 ts : Nat) :
    ((betAndSpin s sender msgValue betExt r1 r2 r3 ts).1.history
        sender).length = (s.history sender).length + 1 ∧
    (betAndSpin s sender msgValue betExt r1 r2 r3 ts).2 =
      ((betAndSpin s sender msgValue betExt r1 r2 r3 ts).1.history
          sender).length - 1 ∧
    (∀ u, u ≠ sender →
      (betAndSpin s sender msgValue betExt r1 r2 r3 ts).1.history u =
        s.history u) ∧
    (betAndSpin s sender msgValue betExt r1 r2 r3 ts).1.players =
      (if s.isPlayer sender then s.players else s.players ++ [sender]) ∧
    (∀ u, (betAndSpin s sender msgValue betExt r1 r2 r3 ts).1.isPlayer u =
      (s.isPlayer u || decide (u = sender))) ∧
    (betAndSpin s sender msgValue betExt r1 r2 r3 ts).1.balance =
      s.balance + msgValue := by
  unfold betAndSpin
  dsimp only
  refine ⟨by simp, by simp, fun u hu => by simp [hu], rfl, fun u => ?_, rfl⟩
  by_cases hs : s.isPlayer sender
  · rw [if_pos hs]
    by_cases hu : u = sender
    · subst hu; simp [hs]
    · simp [hu]
  · rw [if_neg hs]
    by_cases hu : u = sender
    · subst hu; simp
    · simp [hu]

/-- Witness for C6 (amended) on the empty state: player 2's history is
untouched by player 1's spin. -/
theorem betAndSpin_frame_witness :
    (betAndSpin initialState 1 1 0 0 0 0 0).1.history 2 =
      initialState.history 2 :=
  (betAndSpin_frame initialState 1 1 0 0 0 0 0).2.2.1 2 (by decide)

/-- Per-transaction history lemma: every operation leaves every
history length nondecreasing, keeps the non-claimed fields of existing
records, and never resets a claimed flag. -/
theorem applyOp_history (s : ContractState) (op : Op) (u : Nat) :
    (s.history u).length ≤ ((applyOp s op).history u).length ∧
    ∀ j, j < (s.history u).length →
      ((applyOp s op).history u)[j]?.map GameRecord.core =
        (s.history u)[j]?.map GameRecord.core ∧
      ((s.history u)[j]?.map GameRecord.claimed = some true →
        ((applyOp s op).history u)[j]?.map GameRecord.claimed =
          some true) := by
  cases op with
  | deposit v =>
    simp only [applyOp, deposit]
    by_cases hv : v > 0
    · rw [if_pos hv]
      exact ⟨le_refl _, fun j _ => ⟨rfl, fun h => h⟩⟩
    · rw [if_neg hv]
      exact ⟨le_refl _, fun j _ => ⟨rfl, fun h => h⟩⟩
  | betAndSpin sender mv be r1 r2 r3 ts =>
    simp only [applyOp]
    unfold betAndSpin
    dsimp only
    by_cases hu : u = sender
    · subst hu
      rw [if_pos rfl]
      refine ⟨by simp, fun j hj => ?_⟩
      rw [List.getElem?_append_left hj]
      exact ⟨rfl, fun h => h⟩
    · rw [if_neg hu]
      exact ⟨le_refl _, fun j _ => ⟨rfl, fun h => h⟩⟩
  | claimAllMock sender idxs pays tok =>
    simp only [applyOp]
    cases hc : claimAllMock s sender idxs pays tok with
    | error e =>
      exact ⟨le_refl _, fun j _ => ⟨rfl, fun h => h⟩⟩
    | ok s' =>
      dsimp only
      obtain ⟨⟨recs, hcl, hhist⟩, -, -, -⟩ :=
        claimAllMock_ok s sender idxs pays tok s' hc
      simp only [hhist]
      by_cases hu : u = sender
      · subst hu
        rw [if_pos rfl]
        have hlen := claimLoop_ok_length idxs _ _ hcl
        refine ⟨le_of_eq hlen.symm, fun j hj => ?_⟩
        have hget := claimLoop_ok_get idxs _ _ hcl j
        refine ⟨hget.1, fun htrue => ?_⟩
        rw [hget.2]
        rw [List.getElem?_eq_getElem hj] at htrue ⊢
        simp only [Option.map_some'] at htrue ⊢
        injection htrue with htrue
        rw [htrue]
        simp
      · rw [if_neg hu]
        exact ⟨le_refl _, fun j _ => ⟨rfl, fun h => h⟩⟩

/-- `applyOp_history` extended to arbitrary transaction sequences. -/
theorem applyOps_history (ops : List Op) :
    ∀ s u, (s.history u).length ≤ ((applyOps s ops).history u).length ∧
      ∀ j, j < (s.history u).length →
        ((applyOps s ops).history u)[j]?.map GameRecord.core =
          (s.history u)[j]?.map GameRecord.core ∧
        ((s.history u)[j]?.map GameRecord.claimed = some true →
          ((applyOps s ops).history u)[j]?.map GameRecord.claimed =
            some true) := by
  induction ops with
  | nil => exact fun s u => ⟨le_refl _, fun j _ => ⟨rfl, fun h => h⟩⟩
  | cons op rest ih =>
    intro s u
    have h1 := applyOp_history s op u
    have h2 := ih (applyOp s op) u
    refine ⟨le_trans h1.1 h2.1, fun j hj => ?_⟩
    have hj' : j < ((applyOp s op).history u).length :=
      lt_of_lt_of_le hj h1.1
    exact ⟨(h2.2 j hj').1.trans (h1.2 j hj).1,
      fun hcl => (h2.2 j hj').2 ((h1.2 j hj).2 hcl)⟩

/-- C4: The claimed flag is monotonic false→true: `betAndSpin` creates
every record with `claimed = false`, and no sequence of contract
transactions (deposit, betAndSpin, claimAllMock; the views being pure)
ever turns a record's claimed flag from true back to false. -/
theorem claimed_flag_monotone (ops : List Op) (s : ContractState)
    (u i : Nat) :
    ((s.history u)[i]?.map GameRecord.claimed = some true →
      ((applyOps s ops).history u)[i]?.map GameRecord.claimed =
        some true) ∧
    ∀ sender msgValue betExt r1 r2 r3 ts,
      ((betAndSpin s sender msgValue betExt r1 r2 r3 ts).1.history
          sender).getLast?.map GameRecord.claimed = some false := by
  constructor
  · intro h
    have hi : i < (s.history u).length := by
      by_contra hcon
      rw [List.getElem?_eq_none (le_of_not_lt hcon)] at h
      simp at h
    exact ((applyOps_history ops s u).2 i hi).2 h
  · intro sender mv be r1 r2 r3 ts
    simp [betAndSpin]
    rfl

/-- Witness for C4: a flag set by `claimAllMock` stays true across a
later deposit. -/
theorem claimed_flag_monotone_witness :
    ((applyOps
        (applyOps initialState
          [Op.betAndSpin 1 1 0 0 0 0 0, Op.claimAllMock 1 [0] [0] true])
        [Op.deposit 5]).history 1)[0]?.map GameRecord.claimed =
      some true :=
  (claimed_flag_monotone [Op.deposit 5]
      (applyOps initialState
        [Op.betAndSpin 1 1 0 0 0 0 0, Op.claimAllMock 1 [0] [0] true])
      1 0).1 (by decide)

/-- C5: Histories are append-only and index-stable: no transaction
shrinks a history, and a successful `getUserRecord(user, i)` keeps
returning the same six fields after any further transactions (only the
claimed flag of the underlying record may change). -/
theorem history_append_only (ops : List Op) (s : ContractState)
    (u i : Nat) :
    (s.history u).length ≤ ((applyOps s ops).history u).length ∧
    ∀ t, getUserRecord s u i = Except.ok t →
      getUserRecord (applyOps s ops) u i = Except.ok t := by
  refine ⟨(applyOps_history ops s u).1, fun t ht => ?_⟩
  unfold getUserRecord at ht ⊢
  split at ht
  · rename_i hi
    injection ht with ht
    have hi' : i < ((applyOps s ops).history u).length :=
      lt_of_lt_of_le hi (applyOps_history ops s u).1
    have hcore := ((applyOps_history ops s u).2 i hi).1
    rw [List.getElem?_eq_getElem hi, List.getElem?_eq_getElem hi'] at hcore
    simp only [Option.map_some'] at hcore
    injection hcore with hcore
    rw [dif_pos hi']
    rw [← ht]
    exact congrArg Except.ok hcore
  · simp at ht

/-- Witness for C5: the record stored by a spin is returned unchanged
after a later deposit and another player's spin. -/
theorem history_append_only_witness :
    getUserRecord
      (applyOps (betAndSpin initialState 1 1 0 0 0 0 0).1
        [Op.deposit 5, Op.betAndSpin 2 3 0 0 0 0 9]) 1 0 =
      Except.ok (1, 0, 0, 0, 5, 0) :=
  (history_append_only [Op.deposit 5, Op.betAndSpin 2 3 0 0 0 0 9]
      (betAndSpin initialState 1 1 0 0 0 0 0).1 1 0).2
    (1, 0, 0, 0, 5, 0) (by rfl)

theorem inv_initial : Inv initialState := by
  refine ⟨fun u r hr => ?_, ?_, fun a => ?_, fun a => ?_⟩ <;>
    simp [initialState] at *

theorem inv_applyOp (s : ContractState) (op : Op) (h : Inv s) :
    Inv (applyOp s op) := by
  obtain ⟨hsym, hnd, hmem, hne⟩ := h
  cases op with
  | deposit v =>
    simp only [applyOp, deposit]
    by_cases hv : v > 0
    · rw [if_pos hv]
      exact ⟨hsym, hnd, hmem, hne⟩
    · rw [if_neg hv]
      exact ⟨hsym, hnd, hmem, hne⟩
  | betAndSpin sender mv be r1 r2 r3 ts =>
    simp only [applyOp]
    unfold betAndSpin
    refine ⟨?_, ?_, ?_, ?_⟩ <;> dsimp only
    · intro u r hr
      by_cases hu : u = sender
      · rw [if_pos hu] at hr
        rcases List.mem_append.mp hr with hr | hr
        · exact hsym u r hr
        · rw [List.mem_singleton] at hr
          subst hr
          exact ⟨Nat.mod_lt _ (by decide), Nat.mod_lt _ (by decide),
            Nat.mod_lt _ (by decide)⟩
      · rw [if_neg hu] at hr
        exact hsym u r hr
    · by_cases hp : s.isPlayer sender
      · rw [if_pos hp]
        exact hnd
      · rw [if_neg hp]
        have hns : sender ∉ s.players := fun hin => hp ((hmem sender).mp hin)
        simp [List.nodup_append, hnd, hns]
    · intro a
      by_cases hp : s.isPlayer sender
      · rw [if_pos hp, if_pos hp]
        exact hmem a
      · rw [if_neg hp, if_neg hp]
        by_cases ha : a = sender
        · subst ha
          simp
        · simp only [List.mem_append, List.mem_singleton, ha, or_false,
            if_neg ha]
          exact hmem a
    · intro a
      by_cases ha : a = sender
      · subst ha
        rw [if_pos rfl]
        by_cases hp : s.isPlayer a
        · rw [if_pos hp]
          simp [hp]
        · rw [if_neg hp]
          simp
      · rw [if_neg ha]
        by_cases hp : s.isPlayer sender
        · rw [if_pos hp]
          exact hne a
        · rw [if_neg hp, if_neg ha]
          exact hne a
  | claimAllMock sender idxs pays tok =>
    simp only [applyOp]
    cases hc : claimAllMock s sender idxs pays tok with
    | error e => exact ⟨hsym, hnd, hmem, hne⟩
    | ok s' =>
      dsimp only
      obtain ⟨⟨recs, hcl, hhist⟩, hpl, hip, -⟩ :=
        claimAllMock_ok s sender idxs pays tok s' hc
      have hlen := claimLoop_ok_length idxs _ _ hcl
      refine ⟨?_, ?_, ?_, ?_⟩
      · intro u r hr
        simp only [hhist] at hr
        by_cases hu : u = sender
        · rw [if_pos hu] at hr
          obtain ⟨j, hj, hjr⟩ := List.mem_iff_getElem.mp hr
          have hj2 : j < (s.history sender).length := by
            rw [← hlen]; exact hj
          have hget := (claimLoop_ok_get idxs _ _ hcl j).1
          rw [List.getElem?_eq_getElem hj, List.getElem?_eq_getElem hj2]
            at hget
          simp only [Option.map_some'] at hget
          injection hget with hget
          rw [hjr] at hget
          have hold := hsym sender ((s.history sender)[j])
            (List.getElem_mem hj2)
          simp only [GameRecord.core, Prod.mk.injEq] at hget
          obtain ⟨-, h1, h2, h3, -, -⟩ := hget
          rw [h1, h2, h3]
          exact hold
        · rw [if_neg hu] at hr
          exact hsym u r hr
      · rw [hpl]
        exact hnd
      · intro a
        rw [hpl, hip]
        exact hmem a
      · intro a
        rw [hip]
        simp only [hhist]
        by_cases ha : a = sender
        · subst ha
          rw [if_pos rfl]
          rw [hne a]
          constructor
          · intro hx hy
            exact hx (List.length_eq_zero.mp (by rw [← hlen, hy, List.length_nil]))
          · intro hx hy
            exact hx (List.length_eq_zero.mp (by rw [hlen, hy, List.length_nil]))
        · rw [if_neg ha]
          exact hne a

/-- The invariant holds after any transaction sequence. -/
theorem inv_applyOps (ops : List Op) : ∀ s, Inv s → Inv (applyOps s ops) := by
  induction ops with
  | nil => exact fun _ h => h
  | cons op rest ih => exact fun s h => ih _ (inv_applyOp s op h)

/-- C7: Every reel symbol in every record ever stored by `betAndSpin`
lies in the 6-symbol alphabet {0,…,5} (each is a random 32-bit value
reduced mod 6), for every reachable state, play and player. -/
theorem reel_symbols_in_range (ops : List Op) (u : Nat) (r : GameRecord)
    (hr : r ∈ (applyOps initialState ops).history u) :
    r.sym1 < 6 ∧ r.sym2 < 6 ∧ r.sym3 < 6 :=
  (inv_applyOps ops initialState inv_initial).1 u r hr

/-- Witness for C7 on the record produced by one concrete spin. -/
theorem reel_symbols_in_range_witness :
    ({ encBet := 1, sym1 := 0, sym2 := 0, sym3 := 0, encPayout := 5,
       timestamp := 0, claimed := false } : GameRecord).sym1 < 6 ∧
    ({ encBet := 1, sym1 := 0, sym2 := 0, sym3 := 0, encPayout := 5,
       timestamp := 0, claimed := false } : GameRecord).sym2 < 6 ∧
    ({ encBet := 1, sym1 := 0, sym2 := 0, sym3 := 0, encPayout := 5,
       timestamp := 0, claimed := false } : GameRecord).sym3 < 6 :=
  reel_symbols_in_range [Op.betAndSpin 1 1 0 0 0 0 0] 1 _ (by decide)

/-- C8: In every reachable state the players list is a duplicate-free
set, and an address is in `_players` (hence in `getPlayers`) iff its
`_isPlayer` flag is set, iff it has played at least once (non-empty
history). -/
theorem players_set_spec (ops : List Op) :
    (applyOps initialState ops).players.Nodup ∧
    (∀ a, a ∈ getPlayers (applyOps initialState ops) ↔
      (applyOps initialState ops).isPlayer a = true) ∧
    (∀ a, a ∈ getPlayers (applyOps initialState ops) ↔
      (applyOps initialState ops).history a ≠ []) := by
  have h := inv_applyOps ops initialState inv_initial
  exact ⟨h.2.1, fun a => h.2.2.1 a, fun a => (h.2.2.1 a).trans (h.2.2.2 a)⟩

/-- The `claimAllMock` loop reverts exactly when some position of
`indexes` is bad in the sense of `badIndexAt`. -/
theorem claimLoop_error_iff (idxs : List Nat) :
    ∀ recs : List GameRecord,
      (∃ e, claimLoop recs idxs = Except.error e) ↔
        ∃ k, badIndexAt recs idxs k := by
  induction idxs with
  | nil =>
    intro recs
    constructor
    · rintro ⟨e, he⟩
      unfold claimLoop at he
      simp at he
    · rintro ⟨k, hk, -⟩
      simp at hk
  | cons idx rest ih =>
    intro recs
    unfold claimLoop
    by_cases hlt : idx < recs.length
    · rw [dif_pos hlt]
      dsimp only
      by_cases hcl : (recs.get ⟨idx, hlt⟩).claimed = true
      · rw [if_pos hcl]
        constructor
        · intro _
          refine ⟨0, by simp, Or.inr (Or.inl ⟨by simpa using hlt, ?_⟩)⟩
          simpa using hcl
        · intro _
          exact ⟨_, rfl⟩
      · rw [if_neg hcl]
        rw [ih]
        constructor
        · rintro ⟨k, hk, hbad⟩
          refine ⟨k + 1, by simpa using hk, ?_⟩
          rw [List.getElem_cons_succ, List.take_succ_cons]
          rcases hbad with h1 | ⟨hi, h2⟩ | h3
          · exact Or.inl (by simpa using h1)
          · by_cases he : rest[k] = idx
            · exact Or.inr (Or.inr (by rw [he]; exact List.mem_cons_self _ _))
            · refine Or.inr (Or.inl ⟨by simpa using hi, ?_⟩)
              rw [List.getElem_set_ne (fun hx => he hx.symm)] at h2
              exact h2
          · exact Or.inr (Or.inr (List.mem_cons_of_mem _ h3))
        · rintro ⟨k, hk, hbad⟩
          cases k with
          | zero =>
            exfalso
            rcases hbad with h1 | ⟨hi, h2⟩ | h3
            · rw [List.getElem_cons_zero] at h1
              omega
            · simp only [List.getElem_cons_zero] at h2
              exact hcl h2
            · simp at h3
          | succ k =>
            have hk' : k < rest.length := by simpa using hk
            rw [List.getElem_cons_succ, List.take_succ_cons] at hbad
            refine ⟨k, hk', ?_⟩
            rcases hbad with h1 | ⟨hi, h2⟩ | h3
            · exact Or.inl (by simpa using h1)
            · by_cases he : rest[k] = idx
              · exfalso
                simp only [he] at h2
                exact hcl h2
              · refine Or.inr (Or.inl ⟨by simpa using hi, ?_⟩)
                rw [List.getElem_set_ne (fun hx => he hx.symm)]
                exact h2
            · rcases List.mem_cons.mp h3 with he | h3
              · refine Or.inr (Or.inl ⟨by rw [he]; simpa using hlt, ?_⟩)
                simp only [he]
                rw [List.getElem_set_self (by simpa using hlt)]
              · exact Or.inr (Or.inr h3)
    · rw [dif_neg hlt]
      constructor
      · intro _
        exact ⟨0, by simp, Or.inl (by simpa using le_of_not_lt hlt)⟩
      · intro _
        exact ⟨_, rfl⟩

/-- C9 counterexample: with a single unclaimed record and sufficient
balance, none of the claim's revert conditions holds for
`indexes = [0, 0]`, `clearPayouts = [0, 0]` (equal lengths, indexes in
bounds, the record unclaimed before the call, zero payout sum,
transfer succeeding), yet `claimAllMock` reverts: the loop marks
record 0 claimed at the first occurrence and hits the
"Already claimed" check at the duplicate. -/
theorem claimAllMock_counterexample :
    ((betAndSpin initialState 1 1 0 0 0 0 0).1.history 1).map
        GameRecord.claimed = [false] ∧
    (betAndSpin initialState 1 1 0 0 0 0 0).1.balance = 1 ∧
    claimAllMock (betAndSpin initialState 1 1 0 0 0 0 0).1 1 [0, 0]
        [0, 0] true = Except.error "Already claimed" :=
  ⟨rfl, rfl, rfl⟩

/-- C9 (amended): `claimAllMock` reverts iff the two arrays differ in
length, or some position of `indexes` is out of the caller's history
bounds, or references a record already claimed when the loop reaches
it (claimed before the call, or a duplicate of an earlier entry of
`indexes`), or the balance is below the sum of `clearPayouts`, or that
sum is positive and the ETH transfer fails; on success it marks
exactly the referenced records claimed, leaves all other fields and
histories untouched, and deducts exactly the sum of the
caller-supplied `clearPayouts`, never comparing them with the stored
encrypted payouts. -/
theorem claimAllMock_spec (s : ContractState) (sender : Nat)
    (indexes clearPayouts : List Nat) (transferOk : Bool) :
    ((∃ e, claimAllMock s sender indexes clearPayouts transferOk =
        Except.error e) ↔
      (indexes.length ≠ clearPayouts.length ∨
       (∃ k, badIndexAt (s.history sender) indexes k) ∨
       s.balance < (clearPayouts.map (· % U64)).sum ∨
       (0 < (clearPayouts.map (· % U64)).sum ∧ transferOk = false))) ∧
    (∀ s', claimAllMock s sender indexes clearPayouts transferOk =
        Except.ok s' →
      s'.players = s.players ∧ s'.isPlayer = s.isPlayer ∧
      s'.balance = s.balance - (clearPayouts.map (· % U64)).sum ∧
      (∀ u, u ≠ sender → s'.history u = s.history u) ∧
      (∀ j : Nat, (s'.history sender)[j]?.map GameRecord.core =
        (s.history sender)[j]?.map GameRecord.core) ∧
      (∀ j : Nat, (s'.history sender)[j]?.map GameRecord.claimed =
        (s.history sender)[j]?.map
          (fun r => r.claimed || decide (j ∈ indexes)))) := by
  constructor
  · unfold claimAllMock
    by_cases hlen : indexes.length = clearPayouts.length
    · rw [if_pos hlen]
      cases hcl : claimLoop (s.history sender) indexes with
      | error e =>
        exact ⟨fun _ =>
            Or.inr (Or.inl ((claimLoop_error_iff indexes _).mp ⟨e, hcl⟩)),
          fun _ => ⟨e, rfl⟩⟩
      | ok recs =>
        dsimp only
        have hnoerr : ¬∃ k, badIndexAt (s.history sender) indexes k := by
          intro hbad
          obtain ⟨e', he'⟩ := (claimLoop_error_iff indexes _).mpr hbad
          rw [hcl] at he'
          exact Except.noConfusion he'
        by_cases hbal : s.balance ≥ (clearPayouts.map (· % U64)).sum
        · rw [if_pos hbal]
          have hbal' : ¬s.balance < (clearPayouts.map (· % U64)).sum :=
            not_lt.mpr hbal
          by_cases htot : (clearPayouts.map (· % U64)).sum > 0
          · rw [if_pos htot]
            by_cases htok : transferOk = true
            · rw [if_pos htok]
              constructor
              · rintro ⟨e, he⟩
                exact Except.noConfusion he
              · rintro (h | h | h | ⟨-, h⟩)
                · exact absurd hlen h
                · exact absurd h hnoerr
                · exact absurd h hbal'
                · rw [htok] at h
                  exact Bool.noConfusion h
            · rw [if_neg htok]
              have htok' : transferOk = false := by
                simpa using htok
              exact ⟨fun _ => Or.inr (Or.inr (Or.inr ⟨htot, htok'⟩)),
                fun _ => ⟨_, rfl⟩⟩
          · rw [if_neg htot]
            constructor
            · rintro ⟨e, he⟩
              exact Except.noConfusion he
            · rintro (h | h | h | ⟨h, -⟩)
              · exact absurd hlen h
              · exact absurd h hnoerr
              · exact absurd h hbal'
              · exact absurd h htot
        · rw [if_neg hbal]
          exact ⟨fun _ => Or.inr (Or.inr (Or.inl (lt_of_not_ge hbal))),
            fun _ => ⟨_, rfl⟩⟩
    · rw [if_neg hlen]
      exact ⟨fun _ => Or.inl hlen, fun _ => ⟨_, rfl⟩⟩
  · intro s' hok
    obtain ⟨⟨recs, hcl, hhist⟩, hpl, hip, hbal⟩ :=
      claimAllMock_ok s sender indexes clearPayouts transferOk s' hok
    refine ⟨hpl, hip, hbal, ?_, ?_, ?_⟩
    · intro u hu
      simp only [hhist]
      rw [if_neg hu]
    · intro j
      simp only [hhist, if_pos rfl]
      exact (claimLoop_ok_get indexes _ _ hcl j).1
    · intro j
      simp only [hhist, if_pos rfl]
      exact (claimLoop_ok_get indexes _ _ hcl j).2

/-- Witness for C9 (amended) on the duplicate-index input: position 1
of `[0, 0]` repeats position 0, so the call reverts. -/
theorem claimAllMock_spec_witness :
    ∃ e, claimAllMock (betAndSpin initialState 1 1 0 0 0 0 0).1 1 [0, 0]
        [0, 0] true = Except.error e :=
  (claimAllMock_spec (betAndSpin initialState 1 1 0 0 0 0 0).1 1 [0, 0]
      [0, 0] true).1.mpr
    (Or.inr (Or.inl ⟨1, by decide, Or.inr (Or.inr (by decide))⟩))

/-- Witness for C8: after one spin by player 1, player 1 appears in
`getPlayers`. -/
theorem players_set_spec_witness :
    (1 : Nat) ∈ getPlayers (applyOps initialState
      [Op.betAndSpin 1 1 0 0 0 0 0]) :=
  ((players_set_spec [Op.betAndSpin 1 1 0 0 0 0 0]).2.2 1).mpr (by decide)

end SlotGuard
